import Mathlib

/-!
# Verification of the MathJax v3 HTML document / braket core

Shallow embedding of:
* `HTMLDocument` (`findPosition`, `mathItem`, `findMath`, `removeFromDocument`)
  from `handlers/html/HTMLDocument.ts`;
* `BraketMethods` (`Braket`, `Bar`) from `input/tex/braket/BraketMethods.ts`;
* `BraketItem` (`checkItem`, `toMml`) from `input/tex/braket/BraketItems.ts`;
together with theorems settling the frozen claims about the spec.

Node references of the external DOM are kept abstract as a type parameter `α`.
Machine numbers in the source are JavaScript numbers used only as non-negative
text offsets and counts, so they are embedded as `Nat`; the single subtraction
in `findPosition` (`index -= n`) happens only on the branch where `index > n`,
so `Nat` subtraction agrees with the source there.
-/

namespace MathjaxV3

/-- A `Location` as in `core/MathItem.ts`: a DOM node reference (or `none` for
the degenerate unresolvable position), an intra-node offset, and the
delimiter string. -/
structure Location (α : Type) where
  node : Option α
  n : Nat
  delim : String
  deriving Repr, DecidableEq

/-- The loop body of `HTMLDocument.findPosition`, acting on one run list
`nodes[N]` (a list of `(node, length)` pairs):

    for (const list of nodes[N]) {
        let [node, n] = list;
        if (index <= n) { return {node: node, n: index, delim: delim}; }
        index -= n;
    }
    return {node: null, n: 0, delim: delim};
-/
def findPositionList {α : Type} (index : Nat) (delim : String) :
    List (α × Nat) → Location α
  | [] => ⟨none, 0, delim⟩
  | (node, n) :: rest =>
      if index ≤ n then ⟨some node, index, delim⟩
      else findPositionList (index - n) delim rest

/-- `HTMLDocument.findPosition(N, index, delim, nodes)`: scan the run list of
string `N`.  (`nodes[N]` is only ever accessed with `N` in range in the
source; out-of-range access is embedded as the empty run list.) -/
def findPosition {α : Type} (N index : Nat) (delim : String)
    (nodes : List (List (α × Nat))) : Location α :=
  findPositionList index delim (nodes.getD N [])

/-- Sum of the run lengths of a run list (the length of the coalesced
string it represents). -/
def runSum {α : Type} (runs : List (α × Nat)) : Nat :=
  (runs.map Prod.snd).sum

/-- Sum of the lengths of the first `k` runs of a run list. -/
def prefixLen {α : Type} (runs : List (α × Nat)) (k : Nat) : Nat :=
  runSum (runs.take k)

theorem runSum_nil {α : Type} : runSum ([] : List (α × Nat)) = 0 := rfl

theorem runSum_cons {α : Type} (p : α × Nat) (runs : List (α × Nat)) :
    runSum (p :: runs) = p.2 + runSum runs := by
  simp [runSum]

theorem prefixLen_zero {α : Type} (runs : List (α × Nat)) :
    prefixLen runs 0 = 0 := rfl

theorem prefixLen_cons_succ {α : Type} (p : α × Nat) (runs : List (α × Nat))
    (k : Nat) : prefixLen (p :: runs) (k + 1) = p.2 + prefixLen runs k := by
  simp [prefixLen, runSum]

/-- The scan returns the degenerate null-node location exactly when the
remaining offset never becomes `≤` the current run length, i.e. when
`index` exceeds every cumulative prefix length. -/
theorem findPositionList_eq_none_iff {α : Type} (index : Nat) (delim : String)
    (runs : List (α × Nat)) :
    findPositionList index delim runs = ⟨none, 0, delim⟩ ↔
      ∀ i < runs.length, prefixLen runs (i + 1) < index := by
  induction runs generalizing index with
  | nil => simp [findPositionList]
  | cons p rest ih =>
      by_cases h : index ≤ p.2
      · simp only [findPositionList, h, if_pos]
        constructor
        · intro hco; cases hco
        · intro hall
          have := hall 0 (Nat.succ_pos _)
          rw [prefixLen_cons_succ, prefixLen_zero] at this
          omega
      · simp only [findPositionList, h, if_neg, not_false_iff]
        rw [ih]
        constructor
        · intro hall i hi
          cases i with
          | zero =>
              rw [prefixLen_cons_succ, prefixLen_zero]
              omega
          | succ j =>
              have hj : j < rest.length := by
                simpa [Nat.succ_lt_succ_iff] using hi
              have := hall j hj
              rw [prefixLen_cons_succ]
              omega
        · intro hall i hi
          have := hall (i + 1) (by simpa [Nat.succ_lt_succ_iff] using hi)
          rw [prefixLen_cons_succ] at this
          omega

/-- When `i` is the first run at which the remaining offset is `≤` that run's
length, the scan stops there and returns that node with
`n = index - prefixLen runs i`. -/
theorem findPositionList_eq_of_firstFit {α : Type} (index : Nat)
    (delim : String) (runs : List (α × Nat)) (i : Nat)
    (hi : i < runs.length)
    (hfit : index ≤ prefixLen runs (i + 1))
    (hmin : ∀ j < i, prefixLen runs (j + 1) < index) :
    findPositionList index delim runs =
      ⟨some (runs.get ⟨i, hi⟩).1, index - prefixLen runs i, delim⟩ := by
  induction runs generalizing index i with
  | nil => exact absurd hi (Nat.not_lt_zero _)
  | cons p rest ih =>
      cases i with
      | zero =>
          rw [prefixLen_cons_succ, prefixLen_zero] at hfit
          simp only [findPositionList]
          rw [if_pos (by omega)]
          simp [prefixLen_zero]
      | succ j =>
          have h0 : prefixLen (p :: rest) 1 < index := hmin 0 (Nat.succ_pos _)
          rw [show (1 : Nat) = 0 + 1 from rfl, prefixLen_cons_succ,
            prefixLen_zero] at h0
          have hj : j < rest.length := by
            simpa [Nat.succ_lt_succ_iff] using hi
          simp only [findPositionList]
          rw [if_neg (by omega)]
          rw [ih (index - p.2) j hj]
          · have hple : prefixLen (p :: rest) (j + 1 + 1) =
                p.2 + prefixLen rest (j + 1) := prefixLen_cons_succ _ _ _
            simp only [List.get, prefixLen_cons_succ]
            congr 1
            omega
          · rw [prefixLen_cons_succ] at hfit
            omega
          · intro k hk
            have := hmin (k + 1) (by omega)
            rw [prefixLen_cons_succ] at this
            omega

/-- C1: `findPosition` resolves the offset to the first run whose cumulative
length reaches it (an offset on a run's end boundary stays with that run,
with intra-offset equal to the full run length), with `n` equal to `index`
minus the lengths of all preceding runs; when the scan exhausts the runs it
returns the degenerate null-node location, without error. -/
theorem C1_findPosition_first_fit {α : Type} (nodes : List (List (α × Nat)))
    (N index : Nat) (delim : String) (hN : N < nodes.length) :
    (∀ i, (hi : i < (nodes.get ⟨N, hN⟩).length) →
      index ≤ prefixLen (nodes.get ⟨N, hN⟩) (i + 1) →
      (∀ j < i, prefixLen (nodes.get ⟨N, hN⟩) (j + 1) < index) →
      findPosition N index delim nodes =
        ⟨some ((nodes.get ⟨N, hN⟩).get ⟨i, hi⟩).1,
          index - prefixLen (nodes.get ⟨N, hN⟩) i, delim⟩) ∧
    ((∀ i < (nodes.get ⟨N, hN⟩).length,
        prefixLen (nodes.get ⟨N, hN⟩) (i + 1) < index) →
      findPosition N index delim nodes = ⟨none, 0, delim⟩) := by
  have hget : nodes.getD N [] = nodes.get ⟨N, hN⟩ := by
    simp [List.getD_eq_getElem?_getD, List.getElem?_eq_getElem hN]
  constructor
  · intro i hi hfit hmin
    unfold findPosition
    rw [hget]
    exact findPositionList_eq_of_firstFit index delim _ i hi hfit hmin
  · intro hall
    unfold findPosition
    rw [hget]
    exact (findPositionList_eq_none_iff index delim _).mpr hall

/-- Witness for C1 at a concrete input: two runs of lengths 3 and 2 in string
0; offset 3 falls on the first run's end boundary and resolves to run 0 with
intra-offset 3; offset 6 exceeds the total and resolves to the null node. -/
theorem C1_findPosition_first_fit_witness :
    findPosition 0 3 "$" [[(10, 3), (20, 2)]] =
        ⟨some 10, 3, "$"⟩ ∧
      findPosition 0 6 "$" [[(10, 3), (20, 2)]] = ⟨none, 0, "$"⟩ := by
  constructor
  · exact (C1_findPosition_first_fit [[(10, 3), (20, 2)]] 0 3 "$"
      (by decide)).1 0 (by decide) (by decide) (by decide)
  · exact (C1_findPosition_first_fit [[(10, 3), (20, 2)]] 0 6 "$"
      (by decide)).2 (by decide)

theorem prefixLen_le_runSum {α : Type} (runs : List (α × Nat)) (k : Nat) :
    prefixLen runs k ≤ runSum runs := by
  have hsplit : runs = runs.take k ++ runs.drop k := (List.take_append_drop _ _).symm
  unfold prefixLen runSum
  calc ((runs.take k).map Prod.snd).sum
      ≤ ((runs.take k).map Prod.snd).sum + ((runs.drop k).map Prod.snd).sum :=
        Nat.le_add_right _ _
    _ = (runs.map Prod.snd).sum := by
        conv_rhs => rw [hsplit]
        rw [List.map_append, List.sum_append]

/-- For a nonempty run list, an offset within the total run length is always
resolved to some run, and the resolution round-trips. -/
theorem findPositionList_roundtrip {α : Type} (k : Nat) (delim : String)
    (runs : List (α × Nat)) (hne : runs ≠ []) (hk : k ≤ runSum runs) :
    ∃ i, ∃ hi : i < runs.length,
      findPositionList k delim runs =
          ⟨some (runs.get ⟨i, hi⟩).1, k - prefixLen runs i, delim⟩ ∧
        prefixLen runs i ≤ k := by
  induction runs generalizing k with
  | nil => exact absurd rfl hne
  | cons p rest ih =>
      by_cases h : k ≤ p.2
      · refine ⟨0, Nat.succ_pos _, ?_, ?_⟩
        · simp [findPositionList, h, prefixLen_zero]
        · rw [prefixLen_zero]; exact Nat.zero_le _
      · have hrest : rest ≠ [] := by
          intro hnil
          rw [hnil, runSum_cons, runSum_nil] at hk
          omega
        have hk' : k - p.2 ≤ runSum rest := by
          rw [runSum_cons] at hk
          omega
        obtain ⟨i, hi, heq, hle⟩ := ih (k - p.2) hrest hk'
        refine ⟨i + 1, by simpa [Nat.succ_lt_succ_iff] using hi, ?_, ?_⟩
        · simp only [findPositionList, h, if_neg, not_false_iff]
          rw [heq]
          simp only [List.get, prefixLen_cons_succ]
          congr 1
          omega
        · rw [prefixLen_cons_succ]
          omega

/-- C7 as stated is false: for the empty run list the total run length is 0
and the offset k = 0 satisfies 0 ≤ k ≤ total, yet `findPosition` returns the
degenerate null-node location even though k is not strictly greater than the
total. -/
theorem C7_roundtrip_counterexample :
    ¬ (0 : Nat) > runSum ([] : List (Nat × Nat)) ∧
      findPosition 0 0 "$" [([] : List (Nat × Nat))] = ⟨none, 0, "$"⟩ :=
  ⟨by decide, rfl⟩

/-- C7 amended: for any in-range string index whose run list is nonempty and
any offset `k ≤` the total run length, `findPosition` returns a run of the
list together with `n = k - prefixLen i`, and the preceding run lengths plus
`n` reproduce `k`; for `k` strictly greater than the total it returns the
degenerate null-node location. -/
theorem C7_roundtrip_amended {α : Type} (nodes : List (List (α × Nat)))
    (N k : Nat) (delim : String) (hN : N < nodes.length)
    (hne : nodes.get ⟨N, hN⟩ ≠ []) :
    (k ≤ runSum (nodes.get ⟨N, hN⟩) →
      ∃ i, ∃ hi : i < (nodes.get ⟨N, hN⟩).length,
        findPosition N k delim nodes =
            ⟨some ((nodes.get ⟨N, hN⟩).get ⟨i, hi⟩).1,
              k - prefixLen (nodes.get ⟨N, hN⟩) i, delim⟩ ∧
          prefixLen (nodes.get ⟨N, hN⟩) i +
              (k - prefixLen (nodes.get ⟨N, hN⟩) i) = k) ∧
    (runSum (nodes.get ⟨N, hN⟩) < k →
      findPosition N k delim nodes = ⟨none, 0, delim⟩) := by
  have hget : nodes.getD N [] = nodes.get ⟨N, hN⟩ := by
    simp [List.getD_eq_getElem?_getD, List.getElem?_eq_getElem hN]
  constructor
  · intro hk
    obtain ⟨i, hi, heq, hle⟩ :=
      findPositionList_roundtrip k delim (nodes.get ⟨N, hN⟩) hne hk
    refine ⟨i, hi, ?_, by omega⟩
    unfold findPosition
    rw [hget]
    exact heq
  · intro hk
    unfold findPosition
    rw [hget]
    refine (findPositionList_eq_none_iff k delim _).mpr ?_
    intro i hi
    have := prefixLen_le_runSum (nodes.get ⟨N, hN⟩) (i + 1)
    omega

/-- Witness for the amended C7 at a concrete input: runs of lengths 3 and 2,
offset 4 resolves into the second run with round-trip 3 + 1 = 4; offset 6
exceeds the total 5 and yields the null node. -/
theorem C7_roundtrip_amended_witness :
    findPosition 0 4 "$" [[(10, 3), (20, 2)]] = ⟨some 20, 1, "$"⟩ ∧
      findPosition 0 6 "$" [[(10, 3), (20, 2)]] = ⟨none, 0, "$"⟩ := by
  constructor
  · obtain ⟨i, hi, heq, hrt⟩ :=
      (C7_roundtrip_amended [[(10, 3), (20, 2)]] 0 4 "$" (by decide)
        (by decide)).1 (by decide)
    have h2 : i < 2 := by simpa using hi
    interval_cases i
    · simp [findPosition, findPositionList, prefixLen, runSum] at heq
    · simp [findPosition, findPositionList, prefixLen, runSum]
  · exact (C7_roundtrip_amended [[(10, 3), (20, 2)]] 0 6 "$" (by decide)
      (by decide)).2 (by decide)

/-! ## The braket extension (`BraketMethods.ts`, `BraketItems.ts`)

The TeX parser state is embedded as a cursor into the input characters plus a
stack of frames.  Frames carry the fields that the braket code stores in the
stack item's property bag (`barmax`, `barcount`, `open`, `close`, `stretchy`)
together with the accumulated child nodes; non-braket frames use the same
record with a different `kind` tag.  `parser.Push` of a finished mml node is
absorbed into the current top frame's children (engine rule for mml items,
which `BraketItem.checkItem` implements for braket frames). -/

/-- The TeX classes referenced by the braket code (`TEXCLASS` in
`MmlNode.ts`). -/
inductive TexClass where
  | ORD
  | OPEN
  | CLOSE
  | INNER
  deriving Repr, DecidableEq

/-- The explicit attributes the braket code places on `mo` tokens; absent
attributes are `none`. -/
structure MoAttrs where
  texClass : Option TexClass := none
  stretchy : Option Bool := none
  braketbar : Option Bool := none
  fence : Option Bool := none
  symmetric : Option Bool := none
  deriving Repr, DecidableEq

/-- The mml nodes the braket code creates.  `row` stands for the result of
`BaseItem.toMml` (modelled from the spec: the engine synthesizes the inner
subtree from the frame's accumulated children); `fenced` stands for the
external `ParseUtil.fenced` (modelled from the spec: a single fenced group
built from the open glyph, the inner content and the close glyph). -/
inductive MmlNode where
  | mo (attrs : MoAttrs) (char : String)
  | texAtom (texClass : TexClass) (children : List MmlNode)
  | row (children : List MmlNode)
  | fenced (openD : String) (inner : MmlNode) (closeD : String)
  | mrow (children : List MmlNode) (openD closeD : String) (texClass : TexClass)

/-- A stack frame.  `openD`/`closeD` embed the `open`/`close` properties. -/
structure Frame where
  kind : String
  barmax : Nat
  barcount : Nat
  openD : String
  closeD : String
  stretchy : Bool
  children : List MmlNode

/-- The TeX parser state: input characters, cursor `i`, and the frame stack
(top first; the engine's bottom frame is always present). -/
structure ParserState where
  i : Nat
  input : List Char
  stack : List Frame

/-- `parser.GetNext()` — modelled from the spec: the next unconsumed input
character (the real parser also skips spaces first; the claims concern the
immediate next character). -/
def getNext (s : ParserState) : Option Char :=
  s.input[s.i]?

/-- `parser.Push` of a finished mml node: the open top frame absorbs it into
its accumulated children (engine rule 2 of the spec's transition relation;
`BraketItem.checkItem`'s mml branch). -/
def pushMml (s : ParserState) (node : MmlNode) : ParserState :=
  match s.stack with
  | [] => s
  | top :: rest =>
      { s with stack := { top with children := top.children ++ [node] } :: rest }

/-- `top.setProperty('barcount', v)` on the current top frame. -/
def setTopBarcount (s : ParserState) (v : Nat) : ParserState :=
  match s.stack with
  | [] => s
  | top :: rest => { s with stack := { top with barcount := v } :: rest }

/-- `BraketMethods.Braket(parser, name, open, close, stretchy, barmax)`:
advance the cursor past the opening marker and push a fresh braket frame with
`barcount` 0 and the handler's configuration stamped into its properties. -/
def Braket (s : ParserState) (openD closeD : String) (stretchy : Bool)
    (barmax : Nat) : ParserState :=
  { s with i := s.i + 1,
           stack := ⟨"braket", barmax, 0, openD, closeD, stretchy, []⟩ :: s.stack }

/-- One observable action of the `Bar` handler, in source order: pushing a
node, setting the top frame's `barcount`, or advancing the cursor
(`parser.i++`). -/
inductive BarEffect where
  | push (node : MmlNode) : BarEffect
  | setBarcount (v : Nat) : BarEffect
  | advanceCursor : BarEffect

/-- `BraketMethods.Bar(parser, name)` as its ordered list of effects:

    let c = name === '|' ? '|' : '∥';
    let top = parser.stack.Top();
    if (top.kind !== 'braket' || top.barcount >= top.barmax) {
      push mo {texClass: ORD, stretchy: false} c; return; }
    if (c === '|' && parser.GetNext() === '|') { parser.i++; c = '∥'; }
    let stretchy = top.stretchy;
    if (!stretchy) { push mo {stretchy: false, braketbar: true} c; return; }
    push TeXAtom[texClass: CLOSE];
    top.barcount := top.barcount + 1;
    push mo {stretchy: true, braketbar: true} c;
    push TeXAtom[texClass: OPEN];

(`Top()` of an empty stack cannot occur: the engine keeps a bottom frame in
place; the empty-stack case is embedded as the fallback emission.) -/
def Bar (s : ParserState) (name : String) : List BarEffect :=
  let c : String := if name = "|" then "|" else "∥"
  match s.stack with
  | [] => [.push (.mo { texClass := some .ORD, stretchy := some false } c)]
  | top :: _ =>
      if top.kind ≠ "braket" ∨ top.barmax ≤ top.barcount then
        [.push (.mo { texClass := some .ORD, stretchy := some false } c)]
      else
        let adv : List BarEffect :=
          if c = "|" ∧ getNext s = some '|' then [.advanceCursor] else []
        let c2 : String := if c = "|" ∧ getNext s = some '|' then "∥" else c
        if top.stretchy = false then
          adv ++ [.push (.mo { stretchy := some false, braketbar := some true } c2)]
        else
          adv ++ [.push (.texAtom .CLOSE []),
                  .setBarcount (top.barcount + 1),
                  .push (.mo { stretchy := some true, braketbar := some true } c2),
                  .push (.texAtom .OPEN [])]

/-- Interpretation of one `Bar` effect on the parser state. -/
def applyEffect (s : ParserState) : BarEffect → ParserState
  | .push n => pushMml s n
  | .setBarcount v => setTopBarcount s v
  | .advanceCursor => { s with i := s.i + 1 }

/-- The net state change of one `Bar` handler invocation. -/
def BarRun (s : ParserState) (name : String) : ParserState :=
  (Bar s name).foldl applyEffect s

/-- The mo tokens among the nodes a `Bar` invocation pushes. -/
def moEmissions (effs : List BarEffect) : List MmlNode :=
  effs.filterMap fun e =>
    match e with
    | .push (.mo attrs c) => some (.mo attrs c)
    | _ => none

/-- On the fallback path (top frame of the wrong kind, or bar budget
exhausted) the handler's whole effect list is one ordinary token push. -/
theorem Bar_fallback_eq (s : ParserState) (name : String) (top : Frame)
    (rest : List Frame) (hs : s.stack = top :: rest)
    (hcond : top.kind ≠ "braket" ∨ top.barmax ≤ top.barcount) :
    Bar s name = [.push (.mo { texClass := some .ORD, stretchy := some false }
        (if name = "|" then "|" else "∥"))] := by
  simp only [Bar, hs]
  rw [if_pos hcond]

/-- On the accepted path with a non-stretchy frame, the effect list is the
optional double-bar cursor advance followed by one provenance-marked token
push. -/
theorem Bar_nonstretchy_eq (s : ParserState) (name : String) (top : Frame)
    (rest : List Frame) (hs : s.stack = top :: rest)
    (hk : top.kind = "braket") (hcnt : top.barcount < top.barmax)
    (hst : top.stretchy = false) :
    Bar s name =
      (if (if name = "|" then "|" else "∥") = "|" ∧ getNext s = some '|'
          then [.advanceCursor] else []) ++
        [.push (.mo { stretchy := some false, braketbar := some true }
          (if (if name = "|" then "|" else "∥") = "|" ∧ getNext s = some '|'
            then "∥" else if name = "|" then "|" else "∥"))] := by
  simp only [Bar, hs]
  rw [if_neg (by simp [hk]; omega), if_pos hst]

/-- On the accepted path with a stretchy frame, the effect list is the
optional double-bar cursor advance, then the CLOSE spacer push, the barcount
increment, the stretchy delimiter push and the OPEN spacer push. -/
theorem Bar_stretchy_eq (s : ParserState) (name : String) (top : Frame)
    (rest : List Frame) (hs : s.stack = top :: rest)
    (hk : top.kind = "braket") (hcnt : top.barcount < top.barmax)
    (hst : top.stretchy = true) :
    Bar s name =
      (if (if name = "|" then "|" else "∥") = "|" ∧ getNext s = some '|'
          then [.advanceCursor] else []) ++
        [.push (.texAtom .CLOSE []),
         .setBarcount (top.barcount + 1),
         .push (.mo { stretchy := some true, braketbar := some true }
          (if (if name = "|" then "|" else "∥") = "|" ∧ getNext s = some '|'
            then "∥" else if name = "|" then "|" else "∥")),
         .push (.texAtom .OPEN [])] := by
  simp only [Bar, hs]
  rw [if_neg (by simp [hk]; omega), if_neg (by simp [hst])]

/-- C4: on the fallback path — top frame not a braket frame, or barcount
already at barmax — the Bar handler emits exactly one ordinary non-stretchy
token carrying the bar character, leaves the cursor, the frame stack's shape
and every frame property unchanged, raises no error, and behaves identically
under either triggering condition. -/
theorem C4_bar_fallback (s : ParserState) (name : String) (top : Frame)
    (rest : List Frame) (hs : s.stack = top :: rest)
    (hcond : top.kind ≠ "braket" ∨ top.barmax ≤ top.barcount) :
    Bar s name =
        [.push (.mo { texClass := some .ORD, stretchy := some false }
          (if name = "|" then "|" else "∥"))] ∧
      BarRun s name = { s with stack :=
        { top with children := top.children ++
            [.mo { texClass := some .ORD, stretchy := some false }
              (if name = "|" then "|" else "∥")] } :: rest } ∧
      (BarRun s name).i = s.i ∧
      (BarRun s name).stack.map Frame.kind = s.stack.map Frame.kind ∧
      (BarRun s name).stack.map Frame.barcount = s.stack.map Frame.barcount ∧
      (BarRun s name).stack.map Frame.barmax = s.stack.map Frame.barmax ∧
      (BarRun s name).stack.map Frame.stretchy = s.stack.map Frame.stretchy ∧
      ∀ (s' : ParserState) (top' : Frame) (rest' : List Frame),
        s'.stack = top' :: rest' →
        (top'.kind ≠ "braket" ∨ top'.barmax ≤ top'.barcount) →
        Bar s' name = Bar s name := by
  have hBar := Bar_fallback_eq s name top rest hs hcond
  have hRun : BarRun s name = { s with stack :=
      { top with children := top.children ++
          [.mo { texClass := some .ORD, stretchy := some false }
            (if name = "|" then "|" else "∥")] } :: rest } := by
    simp [BarRun, hBar, applyEffect, pushMml, hs]
  refine ⟨hBar, hRun, ?_, ?_, ?_, ?_, ?_, ?_⟩
  · simp [hRun]
  · simp [hRun, hs]
  · simp [hRun, hs]
  · simp [hRun, hs]
  · simp [hRun, hs]
  · intro s' top' rest' hs' hcond'
    rw [Bar_fallback_eq s' name top' rest' hs' hcond', hBar]

/-- Witness for C4 at a concrete input: a braket frame whose barcount 1 has
reached barmax 1; the Bar handler downgrades to one ordinary token and the
frame keeps barcount 1. -/
theorem C4_bar_fallback_witness :
    Bar ⟨0, [], [⟨"braket", 1, 1, "⟨", "⟩", true, []⟩]⟩ "|" =
        [.push (.mo { texClass := some .ORD, stretchy := some false } "|")] ∧
      (BarRun ⟨0, [], [⟨"braket", 1, 1, "⟨", "⟩", true, []⟩]⟩ "|").stack.map
          Frame.barcount = [1] := by
  have h := C4_bar_fallback ⟨0, [], [⟨"braket", 1, 1, "⟨", "⟩", true, []⟩]⟩
    "|" ⟨"braket", 1, 1, "⟨", "⟩", true, []⟩ [] rfl (Or.inr (Nat.le_refl 1))
  exact ⟨by simpa using h.1, by rw [h.2.2.2.2.1]; rfl⟩

/-- C5: on the accepted path with a stretchy frame, exactly three nodes are
pushed, in order — a CLOSE-class TeXAtom spacer, the stretchy braketbar
delimiter token, an OPEN-class TeXAtom spacer — and the frame's barcount is
incremented by exactly one, between the CLOSE spacer push and the delimiter
push. -/
theorem C5_bar_stretchy_three_tokens (s : ParserState) (name : String)
    (top : Frame) (rest : List Frame) (hs : s.stack = top :: rest)
    (hk : top.kind = "braket") (hcnt : top.barcount < top.barmax)
    (hst : top.stretchy = true) :
    ∃ adv c,
      (adv = ([] : List BarEffect) ∨ adv = [.advanceCursor]) ∧
      Bar s name = adv ++
        [.push (.texAtom .CLOSE []),
         .setBarcount (top.barcount + 1),
         .push (.mo { stretchy := some true, braketbar := some true } c),
         .push (.texAtom .OPEN [])] ∧
      BarRun s name = { s with
          i := s.i + adv.length,
          stack :=
            { top with
                barcount := top.barcount + 1,
                children := top.children ++
                  [.texAtom .CLOSE [],
                   .mo { stretchy := some true, braketbar := some true } c,
                   .texAtom .OPEN []] } :: rest } := by
  have hBar := Bar_stretchy_eq s name top rest hs hk hcnt hst
  by_cases hco : (if name = "|" then "|" else "∥") = "|" ∧ getNext s = some '|'
  · rw [if_pos hco, if_pos hco] at hBar
    refine ⟨[.advanceCursor], "∥", Or.inr rfl, hBar, ?_⟩
    simp [BarRun, hBar, applyEffect, pushMml, setTopBarcount, hs]
  · rw [if_neg hco, if_neg hco] at hBar
    refine ⟨[], if name = "|" then "|" else "∥", Or.inl rfl, by simpa using hBar, ?_⟩
    simp [BarRun, hBar, applyEffect, pushMml, setTopBarcount, hs]

/-- Witness for C5 at a concrete input: a stretchy braket frame with barmax 1
and barcount 0 receiving a single bar. -/
theorem C5_bar_stretchy_three_tokens_witness :
    ∃ adv c,
      (adv = ([] : List BarEffect) ∨ adv = [.advanceCursor]) ∧
      Bar ⟨0, [], [⟨"braket", 1, 0, "⟨", "⟩", true, []⟩]⟩ "|" = adv ++
        [.push (.texAtom .CLOSE []),
         .setBarcount (0 + 1),
         .push (.mo { stretchy := some true, braketbar := some true } c),
         .push (.texAtom .OPEN [])] ∧
      BarRun ⟨0, [], [⟨"braket", 1, 0, "⟨", "⟩", true, []⟩]⟩ "|" =
        { i := 0 + adv.length, input := [],
          stack := [⟨"braket", 1, 0 + 1, "⟨", "⟩", true,
            [.texAtom .CLOSE [],
             .mo { stretchy := some true, braketbar := some true } c,
             .texAtom .OPEN []]⟩] } :=
  C5_bar_stretchy_three_tokens ⟨0, [], [⟨"braket", 1, 0, "⟨", "⟩", true, []⟩]⟩
    "|" ⟨"braket", 1, 0, "⟨", "⟩", true, []⟩ [] rfl rfl (Nat.zero_lt_one) rfl

/-- C2 as stated is false on the code: a delimiter token accepted by a
*non-stretchy* braket frame (the handler takes the frame path and emits the
provenance-marked `braketbar` token, not an ordinary one) does not increment
`barcount` — here a frame with `barmax = 2`, `barcount = 0` accepts a bar and
its `barcount` stays 0. -/
theorem C2_counterexample :
    Bar ⟨0, [], [⟨"braket", 2, 0, "⟨", "⟩", false, []⟩]⟩ "|" =
        [.push (.mo { stretchy := some false, braketbar := some true } "|")] ∧
      (BarRun ⟨0, [], [⟨"braket", 2, 0, "⟨", "⟩", false, []⟩]⟩ "|").stack.map
          Frame.barcount = [0] := by
  constructor
  · have h := Bar_nonstretchy_eq ⟨0, [], [⟨"braket", 2, 0, "⟨", "⟩", false, []⟩]⟩
      "|" ⟨"braket", 2, 0, "⟨", "⟩", false, []⟩ [] rfl rfl (by decide) rfl
    simpa [getNext] using h
  · rfl

/-- C2 amended: the Braket opening handler pushes the frame with `barcount`
initialized to 0; a delimiter token accepted by a *stretchy* braket frame
increments `barcount` by exactly one (a non-stretchy frame emits the
provenance-marked token without incrementing); and once `barcount` has
reached `barmax`, further delimiter tokens of the same visual form are
emitted as ordinary tokens with every frame's `barcount` unchanged. -/
theorem C2_amended_barcount_discipline :
    (∀ (s : ParserState) (oD cD : String) (st : Bool) (bm : Nat),
      (Braket s oD cD st bm).stack.head? =
        some ⟨"braket", bm, 0, oD, cD, st, []⟩) ∧
    (∀ (s : ParserState) (name : String) (top : Frame) (rest : List Frame),
      s.stack = top :: rest → top.kind = "braket" →
      top.barcount < top.barmax → top.stretchy = true →
      (BarRun s name).stack.map Frame.barcount =
        (top.barcount + 1) :: rest.map Frame.barcount) ∧
    (∀ (s : ParserState) (name : String) (top : Frame) (rest : List Frame),
      s.stack = top :: rest → top.barmax ≤ top.barcount →
      Bar s name =
          [.push (.mo { texClass := some .ORD, stretchy := some false }
            (if name = "|" then "|" else "∥"))] ∧
        (BarRun s name).stack.map Frame.barcount =
          s.stack.map Frame.barcount) := by
  refine ⟨fun s oD cD st bm => rfl, ?_, ?_⟩
  · intro s name top rest hs hk hcnt hst
    obtain ⟨adv, c, _, _, hRun⟩ :=
      C5_bar_stretchy_three_tokens s name top rest hs hk hcnt hst
    simp [hRun, hs]
  · intro s name top rest hs hcnt
    have h := C4_bar_fallback s name top rest hs (Or.inr hcnt)
    exact ⟨h.1, h.2.2.2.2.1⟩

/-- Witness for the amended C2 at concrete inputs: the pushed frame starts at
`barcount` 0; a stretchy frame at 0 of 1 moves to 1; a frame at 1 of 1 emits
the ordinary token and stays at 1. -/
theorem C2_amended_barcount_discipline_witness :
    (Braket ⟨0, [], []⟩ "⟨" "⟩" true 1).stack.head? =
        some ⟨"braket", 1, 0, "⟨", "⟩", true, []⟩ ∧
      (BarRun ⟨0, [], [⟨"braket", 1, 0, "⟨", "⟩", true, []⟩]⟩ "|").stack.map
          Frame.barcount = (0 + 1) :: List.map Frame.barcount [] ∧
      (BarRun ⟨0, [], [⟨"braket", 1, 1, "⟨", "⟩", true, []⟩]⟩ "|").stack.map
          Frame.barcount =
        (ParserState.mk 0 [] [⟨"braket", 1, 1, "⟨", "⟩", true, []⟩]).stack.map
          Frame.barcount := by
  refine ⟨C2_amended_barcount_discipline.1 ⟨0, [], []⟩ "⟨" "⟩" true 1, ?_, ?_⟩
  · exact C2_amended_barcount_discipline.2.1
      ⟨0, [], [⟨"braket", 1, 0, "⟨", "⟩", true, []⟩]⟩ "|"
      ⟨"braket", 1, 0, "⟨", "⟩", true, []⟩ [] rfl rfl Nat.zero_lt_one rfl
  · exact (C2_amended_barcount_discipline.2.2
      ⟨0, [], [⟨"braket", 1, 1, "⟨", "⟩", true, []⟩]⟩ "|"
      ⟨"braket", 1, 1, "⟨", "⟩", true, []⟩ [] rfl (Nat.le_refl 1)).2

/-- C10: when the Bar handler is triggered by `|` on a braket frame with bar
budget remaining and the next unconsumed character is another `|`, it
consumes that character (cursor advances by one) and emits a single U+2225
token in place of the two bars, counting as one occurrence (barcount moves by
one in the stretchy case and not at all otherwise); on the fallback path the
second bar is never consumed and the single-bar token is emitted as is. -/
theorem C10_bar_double_coalescing :
    (∀ (s : ParserState) (top : Frame) (rest : List Frame),
      s.stack = top :: rest → top.kind = "braket" →
      top.barcount < top.barmax → getNext s = some '|' →
      (BarRun s "|").i = s.i + 1 ∧
      moEmissions (Bar s "|") =
        [.mo { stretchy := some top.stretchy, braketbar := some true } "∥"] ∧
      (BarRun s "|").stack.map Frame.barcount =
        (if top.stretchy = true then top.barcount + 1 else top.barcount) ::
          rest.map Frame.barcount) ∧
    (∀ (s : ParserState) (top : Frame) (rest : List Frame),
      s.stack = top :: rest →
      (top.kind ≠ "braket" ∨ top.barmax ≤ top.barcount) →
      (BarRun s "|").i = s.i ∧
      moEmissions (Bar s "|") =
        [.mo { texClass := some .ORD, stretchy := some false } "|"]) := by
  constructor
  · intro s top rest hs hk hcnt hnext
    have hco : (if ("|" : String) = "|" then "|" else "∥") = "|" ∧
        getNext s = some '|' := ⟨rfl, hnext⟩
    cases hstr : top.stretchy with
    | true =>
        have hBar := Bar_stretchy_eq s "|" top rest hs hk hcnt hstr
        rw [if_pos hco, if_pos hco] at hBar
        refine ⟨?_, ?_, ?_⟩
        · simp [BarRun, hBar, applyEffect, pushMml, setTopBarcount, hs]
        · simp [moEmissions, hBar, hstr]
        · simp [BarRun, hBar, applyEffect, pushMml, setTopBarcount, hs, hstr]
    | false =>
        have hBar := Bar_nonstretchy_eq s "|" top rest hs hk hcnt hstr
        rw [if_pos hco, if_pos hco] at hBar
        refine ⟨?_, ?_, ?_⟩
        · simp [BarRun, hBar, applyEffect, pushMml, hs]
        · simp [moEmissions, hBar, hstr]
        · simp [BarRun, hBar, applyEffect, pushMml, hs, hstr]
  · intro s top rest hs hcond
    have h := C4_bar_fallback s "|" top rest hs hcond
    refine ⟨h.2.2.1, ?_⟩
    rw [h.1]
    simp [moEmissions]

/-- Witness for C10 at concrete inputs: a stretchy braket frame reading `||`
coalesces to one U+2225 token and advances the cursor, while an exhausted
frame reading the same input emits a single `|` without consuming the second
bar. -/
theorem C10_bar_double_coalescing_witness :
    (BarRun ⟨0, ['|'], [⟨"braket", 1, 0, "⟨", "⟩", true, []⟩]⟩ "|").i = 0 + 1 ∧
      moEmissions (Bar ⟨0, ['|'], [⟨"braket", 1, 0, "⟨", "⟩", true, []⟩]⟩ "|") =
        [.mo { stretchy := some true, braketbar := some true } "∥"] ∧
      (BarRun ⟨0, ['|'], [⟨"braket", 1, 1, "⟨", "⟩", true, []⟩]⟩ "|").i = 0 ∧
      moEmissions (Bar ⟨0, ['|'], [⟨"braket", 1, 1, "⟨", "⟩", true, []⟩]⟩ "|") =
        [.mo { texClass := some .ORD, stretchy := some false } "|"] := by
  have h1 := C10_bar_double_coalescing.1
    ⟨0, ['|'], [⟨"braket", 1, 0, "⟨", "⟩", true, []⟩]⟩
    ⟨"braket", 1, 0, "⟨", "⟩", true, []⟩ [] rfl rfl Nat.zero_lt_one rfl
  have h2 := C10_bar_double_coalescing.2
    ⟨0, ['|'], [⟨"braket", 1, 1, "⟨", "⟩", true, []⟩]⟩
    ⟨"braket", 1, 1, "⟨", "⟩", true, []⟩ [] rfl (Or.inr (Nat.le_refl 1))
  exact ⟨h1.1, h1.2.1, h2.1, h2.2⟩

/-! ## `BraketItem` (`BraketItems.ts`) -/

/-- An incoming stack item, as far as `BraketItem.checkItem` distinguishes
them: a close marker, a finished mml subtree, or anything else. -/
inductive TexItem where
  | closeItem : TexItem
  | mmlItem (node : MmlNode) : TexItem
  | otherItem : TexItem

/-- The `CheckType` result of `checkItem`: `[[items], true]` replaces the
frame (pop signal true) with the given finished nodes wrapped as mml items;
`[null, false]` means the item was absorbed; everything else is delegated to
`super.checkItem`. -/
inductive CheckResult where
  | replaceWith (items : List MmlNode) (pop : Bool) : CheckResult
  | absorbed : CheckResult
  | delegated : CheckResult

/-- `BraketItem.toMml`.  `super.toMml()` (the engine's `BaseItem`) builds the
inner subtree from the frame's accumulated children — modelled from the spec
("synthesizes a subtree from its accumulated children") as the `row`
constructor.  `ParseUtil.fenced` is external to the selection — modelled from
the spec ("a single fenced group ... using the open/close glyphs around the
accumulated inner content") as the opaque `fenced` constructor. -/
def BraketItem.toMml (f : Frame) : MmlNode :=
  let inner := MmlNode.row f.children
  if f.stretchy then
    MmlNode.fenced f.openD inner f.closeD
  else
    MmlNode.mrow
      [MmlNode.mo { texClass := some .OPEN, stretchy := some false, fence := some true, symmetric := some true } f.openD,
       inner,
       MmlNode.mo { texClass := some .OPEN, stretchy := some false, fence := some true, symmetric := some true } f.closeD]
      f.openD f.closeD .INNER

/-- `BraketItem.checkItem`: a close item finalizes the frame to the single
mml item `toMml` with the pop signal `true`; an mml item is absorbed into the
frame's children; anything else is delegated to the base class. -/
def BraketItem.checkItem (f : Frame) : TexItem → Frame × CheckResult
  | .closeItem => (f, .replaceWith [BraketItem.toMml f] true)
  | .mmlItem n => ({ f with children := f.children ++ [n] }, .absorbed)
  | .otherItem => (f, .delegated)

/-- C6: a close item makes `checkItem` finalize the braket frame into exactly
one mml item carrying the synthesized subtree together with the pop signal
`true`; a stretchy frame synthesizes the single fenced group of open glyph,
inner content and close glyph, and a non-stretchy frame an mrow of exactly
three children — open token, inner content, close token — whose delimiter
tokens both carry fence true, stretchy false, symmetric true. -/
theorem C6_braket_close_finalize :
    (∀ f : Frame,
      BraketItem.checkItem f .closeItem =
        (f, .replaceWith [BraketItem.toMml f] true)) ∧
    (∀ (bm bc : Nat) (oD cD : String) (ch : List MmlNode),
      BraketItem.toMml ⟨"braket", bm, bc, oD, cD, true, ch⟩ =
        .fenced oD (.row ch) cD) ∧
    (∀ (bm bc : Nat) (oD cD : String) (ch : List MmlNode),
      BraketItem.toMml ⟨"braket", bm, bc, oD, cD, false, ch⟩ =
        .mrow
          [.mo { texClass := some .OPEN, stretchy := some false, fence := some true, symmetric := some true } oD,
           .row ch,
           .mo { texClass := some .OPEN, stretchy := some false, fence := some true, symmetric := some true } cD]
          oD cD .INNER) :=
  ⟨fun _ => rfl, fun _ _ _ _ _ => rfl, fun _ _ _ _ _ => rfl⟩

/-! ## `HTMLDocument` discovery and removal (`HTMLDocument.ts`)

The document state carries the two `processed` flags the selection uses, the
math list, the registered input jaxes, the containers that
`adaptor.getElements` yields, and the `domStrings.find` extractor.  External
collaborators appear as function-valued fields: an input jax is its
`processStrings` flag plus its two `findMath` entry points, and the sorted
merge of `HTMLMathList` is passed in as an abstract `merge` function.  The
instrumentation (`FindStats`) counts `domStrings.find` calls and
`jax.findMath` calls so that "performs no extraction / no search" is a
statement about the code, not about the prose. -/

/-- A proto item as produced by an input jax (`core/MathItem.ts`): delimiter
glyphs, the math string, the index `n` of the searched string, start and end
positions (string-mode jaxes fill only the offset `n`; DOM-mode jaxes
self-report full locations), and the display flag. -/
structure ProtoItem (α : Type) where
  openD : String
  math : String
  closeD : String
  n : Nat
  start : Location α
  stop : Location α
  display : Bool

/-- Typeset-lifecycle state values.  Modelled from the spec: `MathItem.ts` is
outside the selection; only the ordering UNPROCESSED < COMPILED < TYPESET <
INSERTED is used. -/
def STATE_UNPROCESSED : Nat := 0

/-- Modelled from the spec: see `STATE_UNPROCESSED`. -/
def STATE_COMPILED : Nat := 1

/-- Modelled from the spec: see `STATE_UNPROCESSED`. -/
def STATE_TYPESET : Nat := 2

/-- Modelled from the spec: see `STATE_UNPROCESSED`. -/
def STATE_INSERTED : Nat := 3

/-- An `HTMLMathItem`: the math string, its owning jax (by index into the
document's jax list), the display flag, resolved start and end locations and
the lifecycle state (`math.state()`). -/
structure MathItemRec (α : Type) where
  math : String
  jaxId : Nat
  display : Bool
  start : Location α
  stop : Location α
  state : Nat

/-- An input jax as `findMath` consumes it (`core/InputJax.ts`): the
`processStrings` mode flag and the `findMath` entry point, split by the type
it receives (string array or DOM container). -/
structure InputJax (α : Type) where
  processStrings : Bool
  findMathStrings : List String → List (ProtoItem α)
  findMathDom : α → List (ProtoItem α)

/-- `HTMLDocument.mathItem`: resolve a proto item's start and end offsets
through `findPosition` on the node array; the fresh `HTMLMathItem` starts
UNPROCESSED. -/
def mathItem {α : Type} (item : ProtoItem α) (jaxId : Nat)
    (nodes : List (List (α × Nat))) : MathItemRec α where
  math := item.math
  jaxId := jaxId
  display := item.display
  start := findPosition item.n item.start.n item.openD nodes
  stop := findPosition item.n item.stop.n item.closeD nodes
  state := STATE_UNPROCESSED

/-- The DOM-mode branch of the `findMath` loop: `new HTMLMathItem(math.math,
jax, math.display, math.start, math.end)` — the jax's self-reported
positions are used directly. -/
def domMathItem {α : Type} (m : ProtoItem α) (jaxId : Nat) : MathItemRec α where
  math := m.math
  jaxId := jaxId
  display := m.display
  start := m.start
  stop := m.stop
  state := STATE_UNPROCESSED

/-- Call counters for one `findMath` invocation: how many times
`domStrings.find` ran and how many times some jax's `findMath` ran. -/
structure FindStats where
  extractions : Nat
  jaxSearches : Nat
  deriving Repr, DecidableEq

/-- One jax's pass over one container inside `findMath`: if the jax processes
strings, extract the string/node arrays on first use (cache `none`) and
resolve each found proto item through `mathItem`; otherwise hand the
container itself to the jax and use its self-reported positions.  Returns
the updated cache, the per-jax math list, and 1 iff this pass called
`domStrings.find`. -/
def jaxPass {α : Type} (dom : α → List String × List (List (α × Nat)))
    (container : α) (jaxId : Nat) (jax : InputJax α)
    (cache : Option (List String × List (List (α × Nat)))) :
    Option (List String × List (List (α × Nat))) × List (MathItemRec α) × Nat :=
  if jax.processStrings then
    match cache with
    | none =>
        let sn := dom container
        (some sn, (jax.findMathStrings sn.1).map (fun m => mathItem m jaxId sn.2), 1)
    | some sn =>
        (some sn, (jax.findMathStrings sn.1).map (fun m => mathItem m jaxId sn.2), 0)
  else
    (cache, (jax.findMathDom container).map (fun m => domMathItem m jaxId), 0)

/-- The inner `for (const jax of this.inputJax)` loop over one container:
thread the lazy cache, merge each per-jax list into the running math list,
and accumulate (extractions, jax searches). -/
def jaxLoop {α : Type}
    (merge : List (MathItemRec α) → List (MathItemRec α) → List (MathItemRec α))
    (dom : α → List String × List (List (α × Nat))) (container : α) :
    List (InputJax α) → Nat →
    Option (List String × List (List (α × Nat))) →
    List (MathItemRec α) → List (MathItemRec α) × Nat × Nat
  | [], _, _, math => (math, 0, 0)
  | jax :: rest, jaxId, cache, math =>
      let r := jaxPass dom container jaxId jax cache
      let r' := jaxLoop merge dom container rest (jaxId + 1) r.1 (merge math r.2.1)
      (r'.1, r.2.2 + r'.2.1, 1 + r'.2.2)

/-- One container's pass: the cache starts empty (`[strings, nodes] = [null,
null]`). -/
def containerPass {α : Type}
    (merge : List (MathItemRec α) → List (MathItemRec α) → List (MathItemRec α))
    (jaxes : List (InputJax α))
    (dom : α → List String × List (List (α × Nat))) (container : α)
    (math : List (MathItemRec α)) : List (MathItemRec α) × Nat × Nat :=
  jaxLoop merge dom container jaxes 0 none math

/-- The outer `for (const container of ...)` loop. -/
def containerLoop {α : Type}
    (merge : List (MathItemRec α) → List (MathItemRec α) → List (MathItemRec α))
    (jaxes : List (InputJax α))
    (dom : α → List String × List (List (α × Nat))) :
    List α → List (MathItemRec α) → List (MathItemRec α) × Nat × Nat
  | [], math => (math, 0, 0)
  | c :: cs, math =>
      let r := containerPass merge jaxes dom c math
      let r' := containerLoop merge jaxes dom cs r.1
      (r'.1, r.2.1 + r'.2.1, r.2.2 + r'.2.2)

/-- The `HTMLDocument` state used by `findMath`/`removeFromDocument`. -/
structure HTMLDocumentRec (α : Type) where
  processedFindMath : Bool
  processedUpdateDocument : Bool
  math : List (MathItemRec α)
  inputJax : List (InputJax α)
  containers : List α
  domStringsFind : α → List String × List (List (α × Nat))

/-- `HTMLDocument.findMath`: guarded by `processed.findMath`; when the guard
is clear, run the container/jax loops, merge into the math list, and set the
flag.  Returns the updated document and the call counters. -/
def findMath {α : Type}
    (merge : List (MathItemRec α) → List (MathItemRec α) → List (MathItemRec α))
    (doc : HTMLDocumentRec α) : HTMLDocumentRec α × FindStats :=
  if doc.processedFindMath then (doc, ⟨0, 0⟩)
  else
    let r := containerLoop merge doc.inputJax doc.domStringsFind
      doc.containers doc.math
    ({ doc with math := r.1, processedFindMath := true }, ⟨r.2.1, r.2.2⟩)

/-- `HTMLDocument.removeFromDocument(restore)`: when `processed.updateDocument`
is set, every math item whose state is at least INSERTED is moved back to
TYPESET (`math.state(STATE.TYPESET, restore)`; the `restore` flag only
affects external DOM restoration); the flag is then cleared unconditionally. -/
def removeFromDocument {α : Type} (restore : Bool) (doc : HTMLDocumentRec α) :
    HTMLDocumentRec α :=
  let doc' := if doc.processedUpdateDocument then
      { doc with math := doc.math.map (fun m =>
          if STATE_INSERTED ≤ m.state then { m with state := STATE_TYPESET } else m) }
    else doc
  { doc' with processedUpdateDocument := false }

/-- C3: `findMath` always leaves the `processed.findMath` flag set, and a
second call with no intervening reset returns the exact document the first
call produced while performing zero string extractions and zero jax
`findMath` calls. -/
theorem C3_findMath_idempotent {α : Type}
    (merge : List (MathItemRec α) → List (MathItemRec α) → List (MathItemRec α))
    (doc : HTMLDocumentRec α) :
    (findMath merge doc).1.processedFindMath = true ∧
      findMath merge (findMath merge doc).1 = ((findMath merge doc).1, ⟨0, 0⟩) := by
  by_cases h : doc.processedFindMath
  · constructor
    · simp [findMath, h]
    · simp [findMath, h]
  · constructor
    · simp [findMath, h]
    · simp [findMath, h]

/-- Once the cache is filled, no later jax pass of the same container
extracts again. -/
theorem jaxLoop_extractions_some {α : Type}
    (merge : List (MathItemRec α) → List (MathItemRec α) → List (MathItemRec α))
    (dom : α → List String × List (List (α × Nat))) (container : α)
    (jaxes : List (InputJax α)) (jaxId : Nat)
    (sn : List String × List (List (α × Nat))) (math : List (MathItemRec α)) :
    (jaxLoop merge dom container jaxes jaxId (some sn) math).2.1 = 0 := by
  induction jaxes generalizing jaxId math with
  | nil => rfl
  | cons jax rest ih =>
      by_cases h : jax.processStrings
      · simp [jaxLoop, jaxPass, h, ih]
      · simp [jaxLoop, jaxPass, h, ih]

/-- Starting from the empty cache, one container's jax loop extracts exactly
once when some jax processes strings and never otherwise. -/
theorem jaxLoop_extractions_none {α : Type}
    (merge : List (MathItemRec α) → List (MathItemRec α) → List (MathItemRec α))
    (dom : α → List String × List (List (α × Nat))) (container : α)
    (jaxes : List (InputJax α)) (jaxId : Nat) (math : List (MathItemRec α)) :
    (jaxLoop merge dom container jaxes jaxId none math).2.1 =
      if jaxes.any (fun j => j.processStrings) then 1 else 0 := by
  induction jaxes generalizing jaxId math with
  | nil => rfl
  | cons jax rest ih =>
      by_cases h : jax.processStrings
      · simp [jaxLoop, jaxPass, h, jaxLoop_extractions_some]
      · simp [jaxLoop, jaxPass, h, ih]

/-- Extraction count of the whole container loop. -/
theorem containerLoop_extractions {α : Type}
    (merge : List (MathItemRec α) → List (MathItemRec α) → List (MathItemRec α))
    (jaxes : List (InputJax α))
    (dom : α → List String × List (List (α × Nat)))
    (cs : List α) (math : List (MathItemRec α)) :
    (containerLoop merge jaxes dom cs math).2.1 =
      cs.length * (if jaxes.any (fun j => j.processStrings) then 1 else 0) := by
  induction cs generalizing math with
  | nil => simp [containerLoop]
  | cons c cs ih =>
      by_cases h : jaxes.any (fun j => j.processStrings)
      · simp only [containerLoop, containerPass, jaxLoop_extractions_none, ih,
          h, if_true, List.length_cons]
        omega
      · simp only [containerLoop, containerPass, jaxLoop_extractions_none, ih,
          List.length_cons, if_neg h]
        omega

/-- C8: within one `findMath` invocation each container's strings are
extracted exactly once when at least one registered jax processes strings and
never otherwise (in particular at most once per container); and a jax with
`processStrings` false receives the container itself, its self-reported
positions are used directly, and its pass performs no extraction and leaves
the cache untouched. -/
theorem C8_lazy_extraction :
    (∀ (α : Type)
      (merge : List (MathItemRec α) → List (MathItemRec α) → List (MathItemRec α))
      (doc : HTMLDocumentRec α),
      doc.processedFindMath = false →
      (findMath merge doc).2.extractions =
        doc.containers.length *
          (if doc.inputJax.any (fun j => j.processStrings) then 1 else 0)) ∧
    (∀ (α : Type) (dom : α → List String × List (List (α × Nat)))
      (container : α) (jaxId : Nat) (jax : InputJax α)
      (cache : Option (List String × List (List (α × Nat)))),
      jax.processStrings = false →
      jaxPass dom container jaxId jax cache =
        (cache, (jax.findMathDom container).map (fun m => domMathItem m jaxId),
          0)) := by
  constructor
  · intro α merge doc h
    simp [findMath, h, containerLoop_extractions]
  · intro α dom container jaxId jax cache h
    simp [jaxPass, h]

/-- Witness for C8 at concrete inputs: a document with two containers, one
string-mode jax and one DOM-mode jax extracts exactly twice (once per
container); and the DOM-mode jax's pass returns its self-reported item with
no extraction. -/
theorem C8_lazy_extraction_witness :
    (findMath (fun a b => a ++ b)
        ⟨false, false, [],
          [⟨true, fun _ => [], fun _ => []⟩,
           ⟨false, fun _ => [], fun c => [⟨"", "x", "", 0, ⟨some c, 0, ""⟩, ⟨some c, 1, ""⟩, false⟩]⟩],
          [0, 1], fun _ => ([""], [[]])⟩).2.extractions = 2 ∧
      jaxPass (fun _ => ([""], [[]])) (5 : Nat) 1
          ⟨false, fun _ => [], fun c => [⟨"", "x", "", 0, ⟨some c, 0, ""⟩, ⟨some c, 1, ""⟩, false⟩]⟩
          none =
        (none,
          [domMathItem ⟨"", "x", "", 0, ⟨some 5, 0, ""⟩, ⟨some 5, 1, ""⟩, false⟩ 1],
          0) := by
  constructor
  · have h := C8_lazy_extraction.1 Nat (fun a b => a ++ b)
      ⟨false, false, [],
        [⟨true, fun _ => [], fun _ => []⟩,
         ⟨false, fun _ => [], fun c => [⟨"", "x", "", 0, ⟨some c, 0, ""⟩, ⟨some c, 1, ""⟩, false⟩]⟩],
        [0, 1], fun _ => ([""], [[]])⟩ rfl
    rw [h]
    rfl
  · have h := C8_lazy_extraction.2 Nat (fun _ => ([""], [[]])) (5 : Nat) 1
      ⟨false, fun _ => [], fun c => [⟨"", "x", "", 0, ⟨some c, 0, ""⟩, ⟨some c, 1, ""⟩, false⟩]⟩
      none rfl
    rw [h]
    rfl

/-- A removal on a document whose `processed.updateDocument` flag is already
clear changes nothing. -/
theorem removeFromDocument_of_not_updated {α : Type} (r : Bool)
    (X : HTMLDocumentRec α) (h : X.processedUpdateDocument = false) :
    removeFromDocument r X = X := by
  cases X
  simp_all [removeFromDocument]

/-- C9: the first removal (with the update flag set) maps every math item
with state at least INSERTED back to TYPESET, leaves other items alone, and
clears the flag; a second consecutive removal is a no-op returning the
document of the first call unchanged. -/
theorem C9_remove_idempotent {α : Type} :
    (∀ (restore : Bool) (doc : HTMLDocumentRec α),
      doc.processedUpdateDocument = true →
      (removeFromDocument restore doc).math = doc.math.map (fun m =>
          if STATE_INSERTED ≤ m.state then { m with state := STATE_TYPESET } else m) ∧
        (removeFromDocument restore doc).processedUpdateDocument = false) ∧
    (∀ (r1 r2 : Bool) (doc : HTMLDocumentRec α),
      removeFromDocument r2 (removeFromDocument r1 doc) =
        removeFromDocument r1 doc) := by
  constructor
  · intro restore doc h
    constructor
    · simp [removeFromDocument, h]
    · simp [removeFromDocument]
  · intro r1 r2 doc
    exact removeFromDocument_of_not_updated r2 _ (by simp [removeFromDocument])

/-- Witness for C9 at a concrete input: a document with items in states
INSERTED (3) and TYPESET (2); removal sends the first back to TYPESET,
leaves the second, clears the flag, and a second removal changes nothing. -/
theorem C9_remove_idempotent_witness :
    (removeFromDocument false
          (⟨true, true,
            [⟨"a", 0, false, ⟨none, 0, ""⟩, ⟨none, 0, ""⟩, 3⟩,
             ⟨"b", 0, false, ⟨none, 0, ""⟩, ⟨none, 0, ""⟩, 2⟩],
            [], [], fun _ => ([], [])⟩ : HTMLDocumentRec Nat)).math =
        [⟨"a", 0, false, ⟨none, 0, ""⟩, ⟨none, 0, ""⟩, 2⟩,
         ⟨"b", 0, false, ⟨none, 0, ""⟩, ⟨none, 0, ""⟩, 2⟩] ∧
      removeFromDocument true (removeFromDocument false
          (⟨true, true,
            [⟨"a", 0, false, ⟨none, 0, ""⟩, ⟨none, 0, ""⟩, 3⟩,
             ⟨"b", 0, false, ⟨none, 0, ""⟩, ⟨none, 0, ""⟩, 2⟩],
            [], [], fun _ => ([], [])⟩ : HTMLDocumentRec Nat)) =
        removeFromDocument false
          (⟨true, true,
            [⟨"a", 0, false, ⟨none, 0, ""⟩, ⟨none, 0, ""⟩, 3⟩,
             ⟨"b", 0, false, ⟨none, 0, ""⟩, ⟨none, 0, ""⟩, 2⟩],
            [], [], fun _ => ([], [])⟩ : HTMLDocumentRec Nat) := by
  constructor
  · have h := (C9_remove_idempotent.1 false
      (⟨true, true,
        [⟨"a", 0, false, ⟨none, 0, ""⟩, ⟨none, 0, ""⟩, 3⟩,
         ⟨"b", 0, false, ⟨none, 0, ""⟩, ⟨none, 0, ""⟩, 2⟩],
        [], [], fun _ => ([], [])⟩ : HTMLDocumentRec Nat) rfl).1
    rw [h]
    rfl
  · exact C9_remove_idempotent.2 false true _

end MathjaxV3
